import Mathlib

/-
Verification of the resume-screening pipeline in src/app.py.

Strings are modelled as lists of characters. Regular-expression character
classes are modelled on their ASCII fragment: the whitespace class as
isSpacePy, the word class as isWordChar, the digit class as Char.isDigit.
External effects (the PDF and DOCX extraction libraries, the remote
completion endpoint, the temporary-file system) are modelled as explicit
oracle parameters and explicit state, so that every function of the source
becomes a total Lean function over those inputs.
-/

namespace ResumeApp

/-- Characters of a string literal, as a list. -/
def strL (s : String) : List Char := s.data

/-- Whitespace, modelling the ASCII fragment of the regex whitespace class
and of the character set stripped by the Python strip method. -/
def isSpacePy (c : Char) : Bool :=
  c == ' ' || c == '\t' || c == '\n' || c == '\r' || c == '\x0b' || c == '\x0c'

/-- Word characters, modelling the ASCII fragment of the regex word class:
letters, digits and the underscore. -/
def isWordChar (c : Char) : Bool := c.isAlphanum || c == '_'

/-- Punctuation characters that the allow-list of clean_text keeps, read off
the negated character class in line 81 of src/app.py. -/
def puncts : List Char :=
  ['@', '-', '.', ',', '•', '®', '©', '#', '&', '+', '/', '(', ')']

/-- Characters kept by the second substitution of clean_text: word
characters, whitespace, and the punctuation allow-list. -/
def allowedChar (c : Char) : Bool :=
  isWordChar c || isSpacePy c || puncts.contains c

/-- Substitution of every maximal whitespace run by one space, modelling the
first substitution of clean_text (line 80 of src/app.py). -/
def collapseWS : List Char → List Char
  | [] => []
  | [c] => if isSpacePy c then [' '] else [c]
  | c :: d :: rest =>
    if isSpacePy c && isSpacePy d then collapseWS (d :: rest)
    else (if isSpacePy c then ' ' else c) :: collapseWS (d :: rest)

/-- Model of the Python strip method: remove leading and trailing
whitespace. -/
def pyStrip (l : List Char) : List Char :=
  ((l.dropWhile isSpacePy).reverse.dropWhile isSpacePy).reverse

/-- Embedding of clean_text (lines 75 to 82 of src/app.py): falsy (empty)
input returns the empty string; otherwise whitespace runs are collapsed,
characters outside the allow-list are removed, and the result is
stripped. -/
def clean_text (l : List Char) : List Char :=
  if l = [] then [] else pyStrip ((collapseWS l).filter allowedChar)

/-- Absence of two adjacent whitespace characters, used to state what the
whitespace collapse establishes. -/
def noTwoSpaces : List Char → Bool
  | [] => true
  | [_] => true
  | c :: d :: rest => (!(isSpacePy c && isSpacePy d)) && noTwoSpaces (d :: rest)

/-- Value of a run of decimal digits. -/
def digitsVal (ds : List Char) : Nat :=
  ds.foldl (fun n c => 10 * n + (c.toNat - 48)) 0

/-- Digit-run parsing: some value exactly on a nonempty all-digit list. -/
def digitsValOpt (ds : List Char) : Option Nat :=
  if ds ≠ [] ∧ ds.all Char.isDigit then some (digitsVal ds) else none

/-- Model of the Python int constructor on a string: surrounding whitespace
is ignored, an optional sign precedes a nonempty digit run, anything else
fails (returns none where the source raises ValueError). -/
def pyIntOfString (s : List Char) : Option Int :=
  match pyStrip s with
  | [] => none
  | a :: ds =>
    if a = '+' then Option.map Int.ofNat (digitsValOpt ds)
    else if a = '-' then Option.map (fun n => -Int.ofNat n) (digitsValOpt ds)
    else Option.map Int.ofNat (digitsValOpt (a :: ds))

/-- Capture shapes occurring in the seven field patterns of
parse_analysis_response: a digit-run group or a rest-of-line group. -/
inductive Cap
  | digits
  | line

/-- Case-insensitive literal match at the current position, returning the
remaining text; models the fixed label part of each field pattern under the
ignore-case flag. -/
def matchLitCI : List Char → List Char → Option (List Char)
  | [], rest => some rest
  | _ :: _, [] => none
  | p :: ps, c :: cs => if p.toLower == c.toLower then matchLitCI ps cs else none

/-- Greedy match of optional whitespace followed by a captured digit run.
Whitespace characters are never digits, so backtracking into the whitespace
run cannot succeed and the greedy reading is exact. -/
def capDigits (rest : List Char) : Option (List Char) :=
  let ds := (rest.dropWhile isSpacePy).takeWhile Char.isDigit
  if ds.isEmpty then none else some ds

/-- Greedy match of optional whitespace followed by a captured group of one
or more characters other than newline. When some character follows the
whitespace run the group runs from there to the end of the line; when the
text ends in whitespace the engine backtracks to the last whitespace
character that is not a newline and captures exactly it. -/
def capLine (rest : List Char) : Option (List Char) :=
  let r := rest.dropWhile isSpacePy
  if r.isEmpty then
    match rest.reverse.dropWhile (fun c => c == '\n') with
    | [] => none
    | c :: _ => some [c]
  else some (r.takeWhile (fun c => !(c == '\n')))

/-- Dispatch of the two capture shapes. -/
def applyCap : Cap → List Char → Option (List Char)
  | Cap.digits, rest => capDigits rest
  | Cap.line, rest => capLine rest

/-- Attempt of the full pattern (literal label, whitespace, capture) at one
position of the text. -/
def tryAt (lit : List Char) (cap : Cap) (text : List Char) : Option (List Char) :=
  match matchLitCI lit text with
  | some rest => applyCap cap rest
  | none => none

/-- Model of an unanchored regex search: the pattern is tried at every
position from the left and the first full match wins, returning the
captured group. -/
def reSearch (lit : List Char) (cap : Cap) : List Char → Option (List Char)
  | [] => tryAt lit cap []
  | c :: cs =>
    match tryAt lit cap (c :: cs) with
    | some g => some g
    | none => reSearch lit cap cs

/-- Keys of the patterns dictionary of parse_analysis_response, in its
insertion order. -/
inductive FieldKey
  | name
  | score
  | found_skills
  | missing_skills
  | experience
  | education
  | verdict
deriving DecidableEq

/-- Label literal and capture shape of each field pattern (lines 150 to 158
of src/app.py). -/
def fieldPattern : FieldKey → List Char × Cap
  | FieldKey.name => (strL "1. Candidate Name:", Cap.line)
  | FieldKey.score => (strL "2. Match Score:", Cap.digits)
  | FieldKey.found_skills => (strL "3. Key Skills Found:", Cap.line)
  | FieldKey.missing_skills => (strL "4. Missing Skills:", Cap.line)
  | FieldKey.experience => (strL "5. Years of Experience:", Cap.line)
  | FieldKey.education => (strL "6. Education:", Cap.line)
  | FieldKey.verdict => (strL "7. Verdict:", Cap.line)

/-- Iteration order of the patterns dictionary. -/
def fieldOrder : List FieldKey :=
  [FieldKey.name, FieldKey.score, FieldKey.found_skills, FieldKey.missing_skills,
   FieldKey.experience, FieldKey.education, FieldKey.verdict]

/-- Sentinel default for the string fields. -/
def notFound : List Char := strL "Not found"

/-- The mutable result dictionary of parse_analysis_response before the
final score coercion: the score entry holds either its initial integer 0 or
a captured string. -/
structure RawResult where
  name : List Char
  scoreVal : Sum Int (List Char)
  found_skills : List Char
  missing_skills : List Char
  experience : List Char
  education : List Char
  verdict : List Char

/-- Initial result dictionary (lines 139 to 148 of src/app.py). -/
def initResult : RawResult :=
  ⟨notFound, Sum.inl 0, notFound, notFound, notFound, notFound, notFound⟩

/-- Assignment of one field of the result dictionary. -/
def setField (s : RawResult) : FieldKey → List Char → RawResult
  | FieldKey.name, v => { s with name := v }
  | FieldKey.score, v => { s with scoreVal := Sum.inr v }
  | FieldKey.found_skills, v => { s with found_skills := v }
  | FieldKey.missing_skills, v => { s with missing_skills := v }
  | FieldKey.experience, v => { s with experience := v }
  | FieldKey.education, v => { s with education := v }
  | FieldKey.verdict, v => { s with verdict := v }

/-- One iteration of the pattern loop (lines 160 to 163 of src/app.py): on
a match the field is set to the stripped captured group, otherwise the
dictionary is unchanged. -/
def stepField (response : List Char) (s : RawResult) (f : FieldKey) : RawResult :=
  match reSearch (fieldPattern f).1 (fieldPattern f).2 response with
  | some g => setField s f (pyStrip g)
  | none => s

/-- Final score coercion (lines 165 to 168 of src/app.py): the int
constructor applied to the score entry, with any failure replaced by 0. -/
def coerceScore : Sum Int (List Char) → Int
  | Sum.inl n => n
  | Sum.inr s => (pyIntOfString s).getD 0

/-- The parsed report returned by parse_analysis_response. -/
structure AnalysisReport where
  name : List Char
  score : Int
  found_skills : List Char
  missing_skills : List Char
  experience : List Char
  education : List Char
  verdict : List Char
  raw_response : List Char

/-- Embedding of parse_analysis_response (lines 138 to 170 of src/app.py):
the pattern loop folded over the dictionary in insertion order, followed by
the score coercion, with the untouched input kept as raw_response. -/
def parse_analysis_response (response : List Char) : AnalysisReport :=
  let r := fieldOrder.foldl (stepField response) initResult
  { name := r.name, score := coerceScore r.scoreVal, found_skills := r.found_skills,
    missing_skills := r.missing_skills, experience := r.experience,
    education := r.education, verdict := r.verdict, raw_response := response }

/-- Standalone single-field extraction: search for the field pattern alone
and return the stripped capture, or the sentinel default. Used to state
that the fields of the parse result are extracted independently. -/
def extractStrField (f : FieldKey) (response : List Char) : List Char :=
  ((reSearch (fieldPattern f).1 (fieldPattern f).2 response).map pyStrip).getD notFound

/-- Standalone score extraction: search for the score pattern alone and
coerce the stripped capture to an integer, or 0. -/
def extractScoreField (response : List Char) : Int :=
  ((reSearch (fieldPattern FieldKey.score).1 (fieldPattern FieldKey.score).2 response).map
    (fun g => (pyIntOfString (pyStrip g)).getD 0)).getD 0

/-- Fixed text of the prompt template before the criteria description. -/
def promptHead : List Char :=
  strL "\nRESUME SCREENING TASK:\n1. First, extract these details from the resume:\n   - Full Name (from header/contact info)\n   - All technical skills\n   - All soft skills\n   - Years of experience\n   - Education\n\n2. Then evaluate against these requirements:\n"

/-- Fixed text of the prompt template between the criteria description and
the resume content. -/
def promptTail : List Char :=
  strL "\n\nRESPONSE FORMAT (STRICT):\n1. Candidate Name: [full name]\n2. Match Score: [0-100]\n3. Key Skills Found: [comma-separated]\n4. Missing Skills: [comma-separated]\n5. Years of Experience: [number]\n6. Education: [highest degree]\n7. Verdict: [Strong/Moderate/Weak Match]\n\nRESUME CONTENT:\n"

/-- Construction of the prompt of analyze_resume (lines 91 to 122 of
src/app.py): each criteria list with nonempty stripped text contributes a
labelled line, an empty criteria collection is replaced by the fixed
general-evaluation phrase, and the pieces are embedded into the template. -/
def buildPrompt (resume_text technical_skills soft_skills : List Char) : List Char :=
  let criteria_parts : List (List Char) :=
    (if pyStrip technical_skills = [] then []
     else [strL "Required Technical Skills: " ++ technical_skills]) ++
    (if pyStrip soft_skills = [] then []
     else [strL "Required Soft Skills: " ++ soft_skills])
  let criteria_string :=
    if criteria_parts = [] then strL "General evaluation of qualifications"
    else List.intercalate (strL "\n") criteria_parts
  promptHead ++ criteria_string ++ promptTail ++ resume_text ++ strL "\n"

/-- Embedding of analyze_resume (lines 85 to 135 of src/app.py). The remote
completion endpoint is an oracle from the prompt to either the stripped-off
content of the first choice or, when the call raises, the message of the
exception; the fixed sampling parameters of the request do not influence
the value model. An empty stripped resume returns the empty-input error
string before the endpoint is consulted; an endpoint failure is caught and
rendered as an analysis-error string. -/
def analyze_resume (remote : List Char → Except (List Char) (List Char))
    (resume_text technical_skills soft_skills : List Char) : List Char :=
  if pyStrip resume_text = [] then strL "Error: Empty resume text"
  else
    match remote (buildPrompt resume_text technical_skills soft_skills) with
    | Except.ok content => pyStrip content
    | Except.error e => strL "Error in analysis: " ++ e

/-- One page of a PDF document as seen by extract_text_from_pdf: the result
of the tight-tolerance extraction call, the result of the looser retry, and
the text recognised on the rasterized page image. A none extraction result
models the library returning no text object for the page. -/
structure PdfPage where
  extractA : Option (List Char)
  extractB : Option (List Char)
  ocr : List Char

/-- Coercion of an optional page text to a string, modelling the
or-empty-string idiom of line 31 of src/app.py. -/
def optStr : Option (List Char) → List Char
  | none => []
  | some s => s

/-- Falsiness of an optional page text: none or the empty string. -/
def optFalsy : Option (List Char) → Bool
  | none => true
  | some s => s.isEmpty

/-- Per-page text of the native extraction (lines 23 to 31 of src/app.py):
the tight-tolerance result, retried with looser parameters when it is falsy
or its stripped length is under 50. -/
def pageText (p : PdfPage) : List Char :=
  optStr (if optFalsy p.extractA ∨ (pyStrip (optStr p.extractA)).length < 50
          then p.extractB else p.extractA)

/-- Total native extraction of the document: per-page texts concatenated,
each followed by a newline. -/
def nativeText (pages : List PdfPage) : List Char :=
  pages.foldl (fun acc p => acc ++ pageText p ++ strL "\n") []

/-- Document-level OCR output: the recognised text of every page image,
joined by single spaces (line 36 of src/app.py). -/
def ocrText (pages : List PdfPage) : List Char :=
  List.intercalate (strL " ") (pages.map PdfPage.ocr)

/-- Embedding of extract_text_from_pdf (lines 17 to 43 of src/app.py) on a
run in which no exception escapes: the native extraction, replaced by the
document-level OCR output exactly when the stripped native text is shorter
than 100 characters and the OCR output is strictly longer than the
unstripped native text. The enclosing handler that reports an extraction
error and returns the empty string lies outside this model. -/
def extract_text_from_pdf (pages : List PdfPage) : List Char :=
  let text := nativeText pages
  if (pyStrip text).length < 100 then
    let ocr_text := ocrText pages
    if text.length < ocr_text.length then ocr_text else text
  else text

/-- An uploaded document: the filename and its binary content, the latter
kept abstract. -/
structure UploadedFile (α : Type) where
  name : List Char
  content : α

/-- Model of the Python lower method on the ASCII range. -/
def strLower (l : List Char) : List Char := l.map Char.toLower

/-- Model of the extension part of os.path.splitext: the suffix starting at
the last dot of the final path component, provided a character other than a
dot precedes it within that component; otherwise the empty string. -/
def splitextExt (p : List Char) : List Char :=
  let base := (p.reverse.takeWhile (fun c => !(c == '/'))).reverse
  let revBase := base.reverse
  let afterDot := revBase.takeWhile (fun c => !(c == '.'))
  if afterDot.length = revBase.length then []
  else if (base.take (base.length - afterDot.length - 1)).any (fun c => !(c == '.'))
  then '.' :: afterDot.reverse
  else []

/-- Embedding of extract_resume_text (lines 55 to 72 of src/app.py) with
the file system made explicit as the list of existing temporary-file paths.
Creating the named temporary file adds the fresh path p; the write of the
uploaded content may raise (writeErr), in which case the exception escapes
the with-block and, the file having been created with deletion disabled, no
removal happens. Otherwise the extension computed from the lowercased
filename selects the PDF extractor, the DOCX extractor, or the empty
string, and the finally-clause unlinks the temporary path before the result
or an extractor exception leaves the function. -/
def extract_resume_text {ε α : Type} (pdfE docxE : α → Except ε (List Char))
    (writeErr : Option ε) (file : UploadedFile α) (p : Nat) (fs : List Nat) :
    Except ε (List Char) × List Nat :=
  let extension := splitextExt (strLower file.name)
  let fs1 := p :: fs
  match writeErr with
  | some e => (Except.error e, fs1)
  | none =>
    let r : Except ε (List Char) :=
      if extension = strL ".pdf" then pdfE file.content
      else if extension = strL ".docx" then docxE file.content
      else Except.ok []
    (r, fs1.erase p)

/-! Helper lemmas about the whitespace collapse. -/

theorem collapse_mem : ∀ (l : List Char) (b : Char), b ∈ collapseWS l → b = ' ' ∨ b ∈ l := by
  intro l
  induction l using collapseWS.induct with
  | case1 => intro b h; simp [collapseWS] at h
  | case2 c hc => intro b h; simp [collapseWS, hc] at h; simp [h]
  | case3 c hc => intro b h; simp [collapseWS, hc] at h; simp [h]
  | case4 c d rest h1 ih =>
    intro b h
    rw [collapseWS, if_pos h1] at h
    rcases ih b h with h' | h'
    · exact Or.inl h'
    · exact Or.inr (List.mem_cons_of_mem c h')
  | case5 c d rest h1 ih =>
    intro b h
    rw [collapseWS, if_neg h1] at h
    rcases List.mem_cons.mp h with h' | h'
    · subst h'
      by_cases hc : isSpacePy c = true
      · simp [hc]
      · simp [hc]
    · rcases ih b h' with h'' | h''
      · exact Or.inl h''
      · exact Or.inr (List.mem_cons_of_mem c h'')

theorem collapse_space_eq :
    ∀ (l : List Char) (b : Char), b ∈ collapseWS l → isSpacePy b = true → b = ' ' := by
  intro l
  induction l using collapseWS.induct with
  | case1 => intro b h _; simp [collapseWS] at h
  | case2 c hc => intro b h _; simp [collapseWS, hc] at h; exact h
  | case3 c hc =>
    intro b h hb
    simp [collapseWS, hc] at h
    subst h; exact absurd hb (by simpa using hc)
  | case4 c d rest h1 ih =>
    intro b h hb
    rw [collapseWS, if_pos h1] at h
    exact ih b h hb
  | case5 c d rest h1 ih =>
    intro b h hb
    rw [collapseWS, if_neg h1] at h
    rcases List.mem_cons.mp h with h' | h'
    · subst h'
      by_cases hc : isSpacePy c = true
      · simp [hc]
      · rw [if_neg hc] at hb ⊢; exact absurd hb hc
    · exact ih b h' hb

theorem collapse_cons_nonspace (d : Char) (rest : List Char) (hd : isSpacePy d = false) :
    collapseWS (d :: rest) = d :: collapseWS rest := by
  cases rest with
  | nil => simp [collapseWS, hd]
  | cons e r => simp [collapseWS, hd]

theorem noTwoSpaces_cons_of (a : Char) (l : List Char)
    (hhd : ∀ b, l.head? = some b → (isSpacePy a && isSpacePy b) = false)
    (hl : noTwoSpaces l = true) : noTwoSpaces (a :: l) = true := by
  cases l with
  | nil => rfl
  | cons d t =>
    have := hhd d rfl
    simp [noTwoSpaces, this, hl]

theorem collapse_noTwoSpaces : ∀ l : List Char, noTwoSpaces (collapseWS l) = true := by
  intro l
  induction l using collapseWS.induct with
  | case1 => rfl
  | case2 c hc => simp [collapseWS, hc]; rfl
  | case3 c hc => simp [collapseWS, hc]; rfl
  | case4 c d rest h1 ih => rw [collapseWS, if_pos h1]; exact ih
  | case5 c d rest h1 ih =>
    rw [collapseWS, if_neg h1]
    by_cases hc : isSpacePy c = true
    · have hd : isSpacePy d = false := by
        cases hd : isSpacePy d
        · rfl
        · exact absurd (by simp [hc, hd]) h1
      rw [if_pos hc]
      refine noTwoSpaces_cons_of _ _ ?_ ih
      intro b hb
      rw [collapse_cons_nonspace d rest hd] at hb
      simp at hb
      subst hb
      simp [hd]
    · rw [if_neg hc]
      refine noTwoSpaces_cons_of _ _ ?_ ih
      intro b _
      simp [show isSpacePy c = false by simpa using hc]

theorem noTwoSpaces_tail (c : Char) (l : List Char) (h : noTwoSpaces (c :: l) = true) :
    noTwoSpaces l = true := by
  cases l with
  | nil => rfl
  | cons d t =>
    simp only [noTwoSpaces, Bool.and_eq_true] at h
    exact h.2

theorem collapse_eq_self :
    ∀ l : List Char, noTwoSpaces l = true → (∀ b ∈ l, isSpacePy b = true → b = ' ') →
    collapseWS l = l := by
  intro l
  induction l using collapseWS.induct with
  | case1 => intro _ _; rfl
  | case2 c hc =>
    intro _ hall
    have : c = ' ' := hall c (by simp) hc
    simp [collapseWS, hc, this]
  | case3 c hc => intro _ _; simp [collapseWS, hc]
  | case4 c d rest h1 ih =>
    intro hnts _
    exfalso
    simp [noTwoSpaces, h1] at hnts
  | case5 c d rest h1 ih =>
    intro hnts hall
    rw [collapseWS, if_neg h1]
    have htail : collapseWS (d :: rest) = d :: rest := by
      refine ih (noTwoSpaces_tail c _ hnts) ?_
      intro b hb
      exact hall b (List.mem_cons_of_mem c hb)
    rw [htail]
    by_cases hc : isSpacePy c = true
    · rw [if_pos hc, hall c (by simp) hc]
    · rw [if_neg hc]

/-! Helper lemmas about stripping. -/

theorem head_dropWhile_not (q : Char → Bool) :
    ∀ (l : List Char) (a : Char), (l.dropWhile q).head? = some a → q a = false := by
  intro l
  induction l with
  | nil => intro a h; simp at h
  | cons c t ih =>
    intro a h
    by_cases hq : q c = true
    · rw [List.dropWhile_cons, if_pos hq] at h
      exact ih a h
    · rw [List.dropWhile_cons, if_neg hq] at h
      simp at h
      subst h
      simpa using hq

theorem dropWhile_eq_self_of_head (q : Char → Bool) (l : List Char)
    (h : ∀ a, l.head? = some a → q a = false) : l.dropWhile q = l := by
  cases l with
  | nil => rfl
  | cons c t =>
    have := h c rfl
    rw [List.dropWhile_cons, if_neg (by simp [this])]

theorem pyStrip_pref (l : List Char) : pyStrip l <+: l.dropWhile isSpacePy := by
  unfold pyStrip
  have hs : (l.dropWhile isSpacePy).reverse.dropWhile isSpacePy <:+
      (l.dropWhile isSpacePy).reverse := List.dropWhile_suffix isSpacePy
  have := List.reverse_prefix.mpr hs
  rwa [List.reverse_reverse] at this

theorem pyStrip_subset (l : List Char) : pyStrip l ⊆ l := by
  intro c hc
  have h1 := (pyStrip_pref l).subset hc
  exact (List.dropWhile_suffix isSpacePy).subset h1

theorem pyStrip_head_not (l : List Char) (a : Char)
    (h : (pyStrip l).head? = some a) : isSpacePy a = false := by
  obtain ⟨t, ht⟩ := pyStrip_pref l
  cases hps : pyStrip l with
  | nil => rw [hps] at h; simp at h
  | cons b s =>
    rw [hps] at h ht
    simp only [List.head?_cons, Option.some.injEq] at h
    have hx : (l.dropWhile isSpacePy).head? = some b := by
      rw [← ht]; rfl
    rw [← h]
    exact head_dropWhile_not isSpacePy l b hx

theorem pyStrip_getLast_not (l : List Char) (a : Char)
    (h : (pyStrip l).getLast? = some a) : isSpacePy a = false := by
  unfold pyStrip at h
  rw [List.getLast?_reverse] at h
  exact head_dropWhile_not isSpacePy (l.dropWhile isSpacePy).reverse a h

theorem pyStrip_eq_self (l : List Char)
    (h1 : ∀ a, l.head? = some a → isSpacePy a = false)
    (h2 : ∀ a, l.getLast? = some a → isSpacePy a = false) : pyStrip l = l := by
  unfold pyStrip
  rw [dropWhile_eq_self_of_head isSpacePy l h1]
  rw [dropWhile_eq_self_of_head isSpacePy l.reverse
    (fun a ha => h2 a (by rwa [List.head?_reverse] at ha))]
  exact List.reverse_reverse l

theorem noTwoSpaces_dropWhile (q : Char → Bool) :
    ∀ l : List Char, noTwoSpaces l = true → noTwoSpaces (l.dropWhile q) = true := by
  intro l
  induction l with
  | nil => intro h; exact h
  | cons c t ih =>
    intro h
    by_cases hq : q c = true
    · rw [List.dropWhile_cons, if_pos hq]
      exact ih (noTwoSpaces_tail c t h)
    · rw [List.dropWhile_cons, if_neg hq]
      exact h

theorem noTwoSpaces_take :
    ∀ (l : List Char) (n : Nat), noTwoSpaces l = true → noTwoSpaces (l.take n) = true := by
  intro l
  induction l using noTwoSpaces.induct with
  | case1 => intro n h; simpa using h
  | case2 c =>
    intro n h
    cases n with
    | zero => rfl
    | succ m => simpa using h
  | case3 c d rest ih =>
    intro n h
    cases n with
    | zero => rfl
    | succ m =>
      cases m with
      | zero => rfl
      | succ m' =>
        have h' := h
        simp only [noTwoSpaces, Bool.and_eq_true] at h'
        have hp : (isSpacePy c && isSpacePy d) = false := by
          cases hcd : (isSpacePy c && isSpacePy d)
          · rfl
          · rw [hcd] at h'; exact absurd h'.1 (by decide)
        have ht := ih (m' + 1) (noTwoSpaces_tail c _ h)
        simp only [List.take_succ_cons] at ht ⊢
        refine noTwoSpaces_cons_of c _ ?_ ht
        intro b hb
        simp only [List.head?_cons, Option.some.injEq] at hb
        rw [← hb]
        exact hp

theorem noTwoSpaces_pyStrip (l : List Char) (h : noTwoSpaces l = true) :
    noTwoSpaces (pyStrip l) = true := by
  have h1 := noTwoSpaces_dropWhile isSpacePy l h
  rw [List.prefix_iff_eq_take.mp (pyStrip_pref l)]
  exact noTwoSpaces_take _ _ h1

/-! Properties of the output of clean_text. -/

theorem clean_mem_allowed (l : List Char) : ∀ c ∈ clean_text l, allowedChar c = true := by
  intro c hc
  unfold clean_text at hc
  by_cases h : l = []
  · rw [if_pos h] at hc; simp at hc
  · rw [if_neg h] at hc
    have := pyStrip_subset _ hc
    exact (List.mem_filter.mp this).2

theorem clean_space_eq (l : List Char) :
    ∀ c ∈ clean_text l, isSpacePy c = true → c = ' ' := by
  intro c hc hsp
  unfold clean_text at hc
  by_cases h : l = []
  · rw [if_pos h] at hc; simp at hc
  · rw [if_neg h] at hc
    have := (List.mem_filter.mp (pyStrip_subset _ hc)).1
    exact collapse_space_eq l c this hsp

theorem clean_head_not (l : List Char) :
    ∀ a, (clean_text l).head? = some a → isSpacePy a = false := by
  intro a ha
  unfold clean_text at ha
  by_cases h : l = []
  · rw [if_pos h] at ha; simp at ha
  · rw [if_neg h] at ha
    exact pyStrip_head_not _ a ha

theorem clean_getLast_not (l : List Char) :
    ∀ a, (clean_text l).getLast? = some a → isSpacePy a = false := by
  intro a ha
  unfold clean_text at ha
  by_cases h : l = []
  · rw [if_pos h] at ha; simp at ha
  · rw [if_neg h] at ha
    exact pyStrip_getLast_not _ a ha

theorem clean_of_allowed (l : List Char) (hall : ∀ c ∈ l, allowedChar c = true) :
    clean_text l = pyStrip (collapseWS l) := by
  unfold clean_text
  by_cases h : l = []
  · rw [if_pos h, h]; rfl
  · rw [if_neg h]
    congr 1
    refine List.filter_eq_self.mpr ?_
    intro c hc
    rcases collapse_mem l c hc with h' | h'
    · subst h'; decide
    · exact hall c h'

theorem clean_fixed (z : List Char)
    (hall : ∀ c ∈ z, allowedChar c = true)
    (hsp : ∀ c ∈ z, isSpacePy c = true → c = ' ')
    (hnts : noTwoSpaces z = true)
    (hhd : ∀ a, z.head? = some a → isSpacePy a = false)
    (hlast : ∀ a, z.getLast? = some a → isSpacePy a = false) :
    clean_text z = z := by
  rw [clean_of_allowed z hall, collapse_eq_self z hnts hsp, pyStrip_eq_self z hhd hlast]

/-- C2, counterexample. The claim that normalize is idempotent fails: on
the input "a – b" the whitespace collapse runs before the character filter,
so deleting the disallowed en dash merges the two surrounding spaces into a
run of two, which only a second application collapses. -/
theorem clean_text_not_idempotent :
    clean_text (clean_text (strL "a – b")) ≠ clean_text (strL "a – b") := by decide

/-- C2, amended claim. One further application of normalize reaches a fixed
point: normalize composed with itself is idempotent, because the output of
normalize contains only allowed characters, so the second pass only
collapses the whitespace runs that the filtering of the first pass may have
created, and a third pass changes nothing. -/
theorem clean_text_idem_after_two (l : List Char) :
    clean_text (clean_text (clean_text l)) = clean_text (clean_text l) := by
  have hyall : ∀ c ∈ clean_text l, allowedChar c = true := clean_mem_allowed l
  refine clean_fixed (clean_text (clean_text l)) (clean_mem_allowed _) (clean_space_eq _)
    ?_ (clean_head_not _) (clean_getLast_not _)
  rw [clean_of_allowed _ hyall]
  exact noTwoSpaces_pyStrip _ (collapse_noTwoSpaces _)

/-- C5, counterexample. The claimed character allow-list of normalize is
too narrow: the regex word class also keeps the underscore, which is
neither alphanumeric, nor whitespace, nor one of the listed punctuation
characters, so the output of normalize on "_" contains a character outside
the claimed set. -/
theorem clean_text_allowlist_cex :
    '_' ∈ clean_text (strL "_") ∧
    ¬('_'.isAlphanum = true ∨ isSpacePy '_' = true ∨ '_' ∈ puncts) := by decide

/-- C5, amended claim. Every character of the output of normalize is a word
character (alphanumeric or underscore), whitespace, or one of the
punctuation characters of the allow-list; every whitespace character that
survives is the single space that a whitespace run of the input was
collapsed to; and the output has no leading or trailing whitespace. -/
theorem clean_text_allowlist (l : List Char) :
    (∀ c ∈ clean_text l, allowedChar c = true) ∧
    (∀ c ∈ clean_text l, isSpacePy c = true → c = ' ') ∧
    (∀ a, (clean_text l).head? = some a → isSpacePy a = false) ∧
    (∀ a, (clean_text l).getLast? = some a → isSpacePy a = false) :=
  ⟨clean_mem_allowed l, clean_space_eq l, clean_head_not l, clean_getLast_not l⟩

/-- C5, witness. The amended claim applied to the concrete input "_ a",
whose normal form is itself: its head character is the underscore, kept and
not whitespace, and its last character is alphanumeric. -/
theorem clean_text_allowlist_witness :
    allowedChar '_' = true ∧ isSpacePy '_' = false ∧ isSpacePy 'a' = false :=
  ⟨(clean_text_allowlist (strL "_ a")).1 '_' (by decide),
   (clean_text_allowlist (strL "_ a")).2.2.1 '_' (by decide),
   (clean_text_allowlist (strL "_ a")).2.2.2 'a' (by decide)⟩

/-! Helper lemmas about the pattern loop of parse_analysis_response: one
iteration writes only its own key, and the whole fold therefore computes
each field from its own search alone. -/

theorem stepField_name_of_ne (r : List Char) (s : RawResult) (f : FieldKey)
    (h : f ≠ FieldKey.name) : (stepField r s f).name = s.name := by
  cases f
  case name => exact absurd rfl h
  all_goals (simp only [stepField]; split <;> simp [setField])

theorem stepField_scoreVal_of_ne (r : List Char) (s : RawResult) (f : FieldKey)
    (h : f ≠ FieldKey.score) : (stepField r s f).scoreVal = s.scoreVal := by
  cases f
  case score => exact absurd rfl h
  all_goals (simp only [stepField]; split <;> simp [setField])

theorem stepField_found_of_ne (r : List Char) (s : RawResult) (f : FieldKey)
    (h : f ≠ FieldKey.found_skills) : (stepField r s f).found_skills = s.found_skills := by
  cases f
  case found_skills => exact absurd rfl h
  all_goals (simp only [stepField]; split <;> simp [setField])

theorem stepField_missing_of_ne (r : List Char) (s : RawResult) (f : FieldKey)
    (h : f ≠ FieldKey.missing_skills) : (stepField r s f).missing_skills = s.missing_skills := by
  cases f
  case missing_skills => exact absurd rfl h
  all_goals (simp only [stepField]; split <;> simp [setField])

theorem stepField_experience_of_ne (r : List Char) (s : RawResult) (f : FieldKey)
    (h : f ≠ FieldKey.experience) : (stepField r s f).experience = s.experience := by
  cases f
  case experience => exact absurd rfl h
  all_goals (simp only [stepField]; split <;> simp [setField])

theorem stepField_education_of_ne (r : List Char) (s : RawResult) (f : FieldKey)
    (h : f ≠ FieldKey.education) : (stepField r s f).education = s.education := by
  cases f
  case education => exact absurd rfl h
  all_goals (simp only [stepField]; split <;> simp [setField])

theorem stepField_verdict_of_ne (r : List Char) (s : RawResult) (f : FieldKey)
    (h : f ≠ FieldKey.verdict) : (stepField r s f).verdict = s.verdict := by
  cases f
  case verdict => exact absurd rfl h
  all_goals (simp only [stepField]; split <;> simp [setField])

theorem stepField_name_eq (r : List Char) (s : RawResult) :
    (stepField r s FieldKey.name).name =
      ((reSearch (fieldPattern FieldKey.name).1 (fieldPattern FieldKey.name).2 r).map
        pyStrip).getD s.name := by
  simp only [stepField]
  rcases h : reSearch (fieldPattern FieldKey.name).1 (fieldPattern FieldKey.name).2 r with _ | g <;>
    simp [h, setField]

theorem stepField_scoreVal_eq (r : List Char) (s : RawResult) :
    (stepField r s FieldKey.score).scoreVal =
      ((reSearch (fieldPattern FieldKey.score).1 (fieldPattern FieldKey.score).2 r).map
        (fun g => (Sum.inr (pyStrip g) : Sum Int (List Char)))).getD s.scoreVal := by
  simp only [stepField]
  rcases h : reSearch (fieldPattern FieldKey.score).1 (fieldPattern FieldKey.score).2 r with _ | g <;>
    simp [h, setField]

theorem stepField_found_eq (r : List Char) (s : RawResult) :
    (stepField r s FieldKey.found_skills).found_skills =
      ((reSearch (fieldPattern FieldKey.found_skills).1 (fieldPattern FieldKey.found_skills).2 r).map
        pyStrip).getD s.found_skills := by
  simp only [stepField]
  rcases h : reSearch (fieldPattern FieldKey.found_skills).1 (fieldPattern FieldKey.found_skills).2 r
    with _ | g <;> simp [h, setField]

theorem stepField_missing_eq (r : List Char) (s : RawResult) :
    (stepField r s FieldKey.missing_skills).missing_skills =
      ((reSearch (fieldPattern FieldKey.missing_skills).1
        (fieldPattern FieldKey.missing_skills).2 r).map pyStrip).getD s.missing_skills := by
  simp only [stepField]
  rcases h : reSearch (fieldPattern FieldKey.missing_skills).1
    (fieldPattern FieldKey.missing_skills).2 r with _ | g <;> simp [h, setField]

theorem stepField_experience_eq (r : List Char) (s : RawResult) :
    (stepField r s FieldKey.experience).experience =
      ((reSearch (fieldPattern FieldKey.experience).1 (fieldPattern FieldKey.experience).2 r).map
        pyStrip).getD s.experience := by
  simp only [stepField]
  rcases h : reSearch (fieldPattern FieldKey.experience).1 (fieldPattern FieldKey.experience).2 r
    with _ | g <;> simp [h, setField]

theorem stepField_education_eq (r : List Char) (s : RawResult) :
    (stepField r s FieldKey.education).education =
      ((reSearch (fieldPattern FieldKey.education).1 (fieldPattern FieldKey.education).2 r).map
        pyStrip).getD s.education := by
  simp only [stepField]
  rcases h : reSearch (fieldPattern FieldKey.education).1 (fieldPattern FieldKey.education).2 r
    with _ | g <;> simp [h, setField]

theorem stepField_verdict_eq (r : List Char) (s : RawResult) :
    (stepField r s FieldKey.verdict).verdict =
      ((reSearch (fieldPattern FieldKey.verdict).1 (fieldPattern FieldKey.verdict).2 r).map
        pyStrip).getD s.verdict := by
  simp only [stepField]
  rcases h : reSearch (fieldPattern FieldKey.verdict).1 (fieldPattern FieldKey.verdict).2 r
    with _ | g <;> simp [h, setField]

theorem parseLoop_name (r : List Char) :
    (fieldOrder.foldl (stepField r) initResult).name =
      ((reSearch (fieldPattern FieldKey.name).1 (fieldPattern FieldKey.name).2 r).map
        pyStrip).getD notFound := by
  simp only [fieldOrder, List.foldl_cons, List.foldl_nil]
  rw [stepField_name_of_ne r _ FieldKey.verdict (by decide),
      stepField_name_of_ne r _ FieldKey.education (by decide),
      stepField_name_of_ne r _ FieldKey.experience (by decide),
      stepField_name_of_ne r _ FieldKey.missing_skills (by decide),
      stepField_name_of_ne r _ FieldKey.found_skills (by decide),
      stepField_name_of_ne r _ FieldKey.score (by decide),
      stepField_name_eq]
  rfl

theorem parseLoop_scoreVal (r : List Char) :
    (fieldOrder.foldl (stepField r) initResult).scoreVal =
      ((reSearch (fieldPattern FieldKey.score).1 (fieldPattern FieldKey.score).2 r).map
        (fun g => (Sum.inr (pyStrip g) : Sum Int (List Char)))).getD (Sum.inl 0) := by
  simp only [fieldOrder, List.foldl_cons, List.foldl_nil]
  rw [stepField_scoreVal_of_ne r _ FieldKey.verdict (by decide),
      stepField_scoreVal_of_ne r _ FieldKey.education (by decide),
      stepField_scoreVal_of_ne r _ FieldKey.experience (by decide),
      stepField_scoreVal_of_ne r _ FieldKey.missing_skills (by decide),
      stepField_scoreVal_of_ne r _ FieldKey.found_skills (by decide),
      stepField_scoreVal_eq,
      stepField_scoreVal_of_ne r _ FieldKey.name (by decide)]
  rfl

theorem parseLoop_found (r : List Char) :
    (fieldOrder.foldl (stepField r) initResult).found_skills =
      ((reSearch (fieldPattern FieldKey.found_skills).1
        (fieldPattern FieldKey.found_skills).2 r).map pyStrip).getD notFound := by
  simp only [fieldOrder, List.foldl_cons, List.foldl_nil]
  rw [stepField_found_of_ne r _ FieldKey.verdict (by decide),
      stepField_found_of_ne r _ FieldKey.education (by decide),
      stepField_found_of_ne r _ FieldKey.experience (by decide),
      stepField_found_of_ne r _ FieldKey.missing_skills (by decide),
      stepField_found_eq,
      stepField_found_of_ne r _ FieldKey.score (by decide),
      stepField_found_of_ne r _ FieldKey.name (by decide)]
  rfl

theorem parseLoop_missing (r : List Char) :
    (fieldOrder.foldl (stepField r) initResult).missing_skills =
      ((reSearch (fieldPattern FieldKey.missing_skills).1
        (fieldPattern FieldKey.missing_skills).2 r).map pyStrip).getD notFound := by
  simp only [fieldOrder, List.foldl_cons, List.foldl_nil]
  rw [stepField_missing_of_ne r _ FieldKey.verdict (by decide),
      stepField_missing_of_ne r _ FieldKey.education (by decide),
      stepField_missing_of_ne r _ FieldKey.experience (by decide),
      stepField_missing_eq,
      stepField_missing_of_ne r _ FieldKey.found_skills (by decide),
      stepField_missing_of_ne r _ FieldKey.score (by decide),
      stepField_missing_of_ne r _ FieldKey.name (by decide)]
  rfl

theorem parseLoop_experience (r : List Char) :
    (fieldOrder.foldl (stepField r) initResult).experience =
      ((reSearch (fieldPattern FieldKey.experience).1
        (fieldPattern FieldKey.experience).2 r).map pyStrip).getD notFound := by
  simp only [fieldOrder, List.foldl_cons, List.foldl_nil]
  rw [stepField_experience_of_ne r _ FieldKey.verdict (by decide),
      stepField_experience_of_ne r _ FieldKey.education (by decide),
      stepField_experience_eq,
      stepField_experience_of_ne r _ FieldKey.missing_skills (by decide),
      stepField_experience_of_ne r _ FieldKey.found_skills (by decide),
      stepField_experience_of_ne r _ FieldKey.score (by decide),
      stepField_experience_of_ne r _ FieldKey.name (by decide)]
  rfl

theorem parseLoop_education (r : List Char) :
    (fieldOrder.foldl (stepField r) initResult).education =
      ((reSearch (fieldPattern FieldKey.education).1
        (fieldPattern FieldKey.education).2 r).map pyStrip).getD notFound := by
  simp only [fieldOrder, List.foldl_cons, List.foldl_nil]
  rw [stepField_education_of_ne r _ FieldKey.verdict (by decide),
      stepField_education_eq,
      stepField_education_of_ne r _ FieldKey.experience (by decide),
      stepField_education_of_ne r _ FieldKey.missing_skills (by decide),
      stepField_education_of_ne r _ FieldKey.found_skills (by decide),
      stepField_education_of_ne r _ FieldKey.score (by decide),
      stepField_education_of_ne r _ FieldKey.name (by decide)]
  rfl

theorem parseLoop_verdict (r : List Char) :
    (fieldOrder.foldl (stepField r) initResult).verdict =
      ((reSearch (fieldPattern FieldKey.verdict).1
        (fieldPattern FieldKey.verdict).2 r).map pyStrip).getD notFound := by
  simp only [fieldOrder, List.foldl_cons, List.foldl_nil]
  rw [stepField_verdict_eq,
      stepField_verdict_of_ne r _ FieldKey.education (by decide),
      stepField_verdict_of_ne r _ FieldKey.experience (by decide),
      stepField_verdict_of_ne r _ FieldKey.missing_skills (by decide),
      stepField_verdict_of_ne r _ FieldKey.found_skills (by decide),
      stepField_verdict_of_ne r _ FieldKey.score (by decide),
      stepField_verdict_of_ne r _ FieldKey.name (by decide)]
  rfl

/-! Helper lemmas about the digit capture of the score pattern. -/

theorem digit_not_space (c : Char) (h : c.isDigit = true) : isSpacePy c = false := by
  by_cases hs : isSpacePy c = true
  · simp only [isSpacePy, Bool.or_eq_true, beq_iff_eq] at hs
    rcases hs with ((((rfl | rfl) | rfl) | rfl) | rfl) | rfl <;> exact absurd h (by decide)
  · simpa using hs

theorem capDigits_shape (rest g : List Char) (h : capDigits rest = some g) :
    g ≠ [] ∧ ∀ c ∈ g, c.isDigit = true := by
  unfold capDigits at h
  by_cases he : ((rest.dropWhile isSpacePy).takeWhile Char.isDigit).isEmpty = true
  · rw [if_pos he] at h; exact absurd h (by simp)
  · rw [if_neg he] at h
    simp only [Option.some.injEq] at h
    subst h
    refine ⟨by simpa [List.isEmpty_iff] using he, ?_⟩
    intro c hc
    exact List.mem_takeWhile_imp hc

theorem reSearch_digits_shape (lit : List Char) :
    ∀ (text g : List Char), reSearch lit Cap.digits text = some g →
      g ≠ [] ∧ ∀ c ∈ g, c.isDigit = true := by
  intro text
  induction text with
  | nil =>
    intro g h
    unfold reSearch tryAt at h
    cases hm : matchLitCI lit [] with
    | none => rw [hm] at h; exact absurd h (by simp)
    | some rest => rw [hm] at h; exact capDigits_shape rest g h
  | cons c cs ih =>
    intro g h
    unfold reSearch at h
    cases ht : tryAt lit Cap.digits (c :: cs) with
    | some g' =>
      rw [ht] at h
      simp only [Option.some.injEq] at h
      subst h
      unfold tryAt at ht
      cases hm : matchLitCI lit (c :: cs) with
      | none => rw [hm] at ht; exact absurd ht (by simp)
      | some rest => rw [hm] at ht; exact capDigits_shape rest _ ht
    | none => rw [ht] at h; exact ih g h

theorem pyStrip_digits (g : List Char) (hdig : ∀ c ∈ g, c.isDigit = true) :
    pyStrip g = g := by
  refine pyStrip_eq_self g ?_ ?_
  · intro a ha
    have : a ∈ g := by
      cases g with
      | nil => simp at ha
      | cons b t => simp at ha; simp [ha]
    exact digit_not_space a (hdig a this)
  · intro a ha
    exact digit_not_space a (hdig a (List.mem_of_mem_getLast? ha))

theorem digits_pyInt (g : List Char) (hne : g ≠ []) (hdig : ∀ c ∈ g, c.isDigit = true) :
    pyIntOfString g = some (Int.ofNat (digitsVal g)) := by
  unfold pyIntOfString
  rw [pyStrip_digits g hdig]
  cases g with
  | nil => exact absurd rfl hne
  | cons a t =>
    have ha : a.isDigit = true := hdig a (by simp)
    have hplus : ¬a = '+' := fun hEq => absurd ha (by rw [hEq]; decide)
    have hminus : ¬a = '-' := fun hEq => absurd ha (by rw [hEq]; decide)
    simp only [hplus, hminus, if_false]
    have : digitsValOpt (a :: t) = some (digitsVal (a :: t)) := by
      unfold digitsValOpt
      rw [if_pos ⟨by simp, by rw [List.all_eq_true]; intro c hc; exact hdig c hc⟩]
    rw [this]
    rfl

/-- C7. parse is total and per-field independent: for every response the
returned report holds, in every one of the seven fields, exactly what the
standalone search for that field's pattern yields, namely the stripped
captured group when the pattern matches and the sentinel default (the text
Not found for the string fields, 0 for the score) otherwise; the untouched
input is kept as raw_response. No field's outcome depends on any other
pattern matching. -/
theorem parse_fields_independent (response : List Char) :
    (parse_analysis_response response).name = extractStrField FieldKey.name response ∧
    (parse_analysis_response response).score = extractScoreField response ∧
    (parse_analysis_response response).found_skills =
      extractStrField FieldKey.found_skills response ∧
    (parse_analysis_response response).missing_skills =
      extractStrField FieldKey.missing_skills response ∧
    (parse_analysis_response response).experience =
      extractStrField FieldKey.experience response ∧
    (parse_analysis_response response).education =
      extractStrField FieldKey.education response ∧
    (parse_analysis_response response).verdict = extractStrField FieldKey.verdict response ∧
    (parse_analysis_response response).raw_response = response := by
  refine ⟨?_, ?_, ?_, ?_, ?_, ?_, ?_, rfl⟩
  · simp only [parse_analysis_response, extractStrField]
    exact parseLoop_name response
  · simp only [parse_analysis_response, extractScoreField]
    rw [show (fieldOrder.foldl (stepField response) initResult).scoreVal =
      ((reSearch (fieldPattern FieldKey.score).1 (fieldPattern FieldKey.score).2 response).map
        (fun g => (Sum.inr (pyStrip g) : Sum Int (List Char)))).getD (Sum.inl 0) from
      parseLoop_scoreVal response]
    rcases reSearch (fieldPattern FieldKey.score).1 (fieldPattern FieldKey.score).2 response
      with _ | g
    · rfl
    · rfl
  · simp only [parse_analysis_response, extractStrField]
    exact parseLoop_found response
  · simp only [parse_analysis_response, extractStrField]
    exact parseLoop_missing response
  · simp only [parse_analysis_response, extractStrField]
    exact parseLoop_experience response
  · simp only [parse_analysis_response, extractStrField]
    exact parseLoop_education response
  · simp only [parse_analysis_response, extractStrField]
    exact parseLoop_verdict response

/-- C10. The parsed score is never negative: the score pattern captures an
unsigned digit run, so a minus sign is never part of the captured group,
and the coercion of a missing or failed capture yields 0. -/
theorem parse_score_nonneg (response : List Char) :
    0 ≤ (parse_analysis_response response).score ∧
    ∀ g, reSearch (fieldPattern FieldKey.score).1 (fieldPattern FieldKey.score).2 response =
      some g → ('-' : Char) ∉ g := by
  constructor
  · rcases h : reSearch (fieldPattern FieldKey.score).1 (fieldPattern FieldKey.score).2 response
      with _ | g
    · simp [parse_analysis_response, parseLoop_scoreVal, h, coerceScore]
    · obtain ⟨hne, hdig⟩ := reSearch_digits_shape _ response g h
      simp only [parse_analysis_response, parseLoop_scoreVal, h, Option.map_some',
        Option.getD_some, coerceScore]
      rw [pyStrip_digits g hdig, digits_pyInt g hne hdig]
      simp
  · intro g hg hmem
    obtain ⟨_, hdig⟩ := reSearch_digits_shape _ response g hg
    exact absurd (hdig '-' hmem) (by decide)

/-- C10, witness. The claim applied to the response 2. Match Score: 55,
whose capture is the digit run 55. -/
theorem parse_score_nonneg_witness :
    0 ≤ (parse_analysis_response (strL "2. Match Score: 55")).score ∧
    ('-' : Char) ∉ strL "55" :=
  ⟨(parse_score_nonneg (strL "2. Match Score: 55")).1,
   (parse_score_nonneg (strL "2. Match Score: 55")).2 (strL "55") (by decide)⟩

/-- C1, counterexample. The stored score is not clamped to the interval
from 0 to 100: on the response 2. Match Score: 101 the parser stores 101,
so the claimed invariant fails. -/
theorem parse_score_no_upper_bound :
    (parse_analysis_response (strL "2. Match Score: 101")).score = 101 ∧
    ¬(parse_analysis_response (strL "2. Match Score: 101")).score ≤ 100 := by decide

/-- C1, amended claim. The score field is a non-negative integer obtained
without any range check: when the score pattern captures a digit run the
stored score is exactly the value of that run, which may exceed 100, and
when the capture is missing the score is 0; the integer coercion never
fails on a captured digit run, so parse never throws on the score field. -/
theorem parse_score_capture (response : List Char) :
    (∃ g, reSearch (fieldPattern FieldKey.score).1 (fieldPattern FieldKey.score).2 response =
        some g ∧ (parse_analysis_response response).score = Int.ofNat (digitsVal g)) ∨
    (reSearch (fieldPattern FieldKey.score).1 (fieldPattern FieldKey.score).2 response = none ∧
      (parse_analysis_response response).score = 0) := by
  rcases h : reSearch (fieldPattern FieldKey.score).1 (fieldPattern FieldKey.score).2 response
    with _ | g
  · right
    refine ⟨rfl, ?_⟩
    simp [parse_analysis_response, parseLoop_scoreVal, h, coerceScore]
  · left
    obtain ⟨hne, hdig⟩ := reSearch_digits_shape _ response g h
    refine ⟨g, rfl, ?_⟩
    simp only [parse_analysis_response, parseLoop_scoreVal, h, Option.map_some',
      Option.getD_some, coerceScore]
    rw [pyStrip_digits g hdig, digits_pyInt g hne hdig]
    rfl

/-- C4. Whenever the remote completion call fails, analyze_resume catches
the exception and returns the analysis-error string carrying the failure
message, instead of propagating the exception to the caller. -/
theorem analyze_remote_failure (remote : List Char → Except (List Char) (List Char))
    (resume_text technical_skills soft_skills e : List Char)
    (hne : pyStrip resume_text ≠ [])
    (hrem : remote (buildPrompt resume_text technical_skills soft_skills) = Except.error e) :
    analyze_resume remote resume_text technical_skills soft_skills =
      strL "Error in analysis: " ++ e := by
  unfold analyze_resume
  rw [if_neg hne, hrem]

/-- C4, witness. The claim applied to a remote endpoint that always raises
with the message boom, on the resume text hi. -/
theorem analyze_remote_failure_witness :
    analyze_resume (fun _ => Except.error (strL "boom")) (strL "hi") (strL "") (strL "") =
      strL "Error in analysis: boom" := by
  have h := analyze_remote_failure (fun _ => Except.error (strL "boom")) (strL "hi")
    (strL "") (strL "") (strL "boom") (by decide) rfl
  rw [h]
  decide

/-- C8. When the stripped resume text is empty, analyze_resume returns the
empty-input error string; the result is the same for every remote endpoint
oracle, so the remote completion endpoint is not consulted. -/
theorem analyze_empty_short_circuit (remote : List Char → Except (List Char) (List Char))
    (resume_text technical_skills soft_skills : List Char)
    (h : pyStrip resume_text = []) :
    analyze_resume remote resume_text technical_skills soft_skills =
      strL "Error: Empty resume text" := by
  unfold analyze_resume
  rw [if_pos h]

/-- C8, witness. The claim applied to a whitespace-only resume text and an
arbitrary concrete endpoint. -/
theorem analyze_empty_short_circuit_witness :
    analyze_resume (fun _ => Except.ok (strL "unused")) (strL "  ") (strL "a") (strL "b") =
      strL "Error: Empty resume text" :=
  analyze_empty_short_circuit (fun _ => Except.ok (strL "unused")) (strL "  ")
    (strL "a") (strL "b") (by decide)

/-- C9. When the stripped native extraction of the whole document is
shorter than 100 characters, extract_text_from_pdf computes the
document-level OCR output over every page and returns it exactly when it is
strictly longer than the unstripped native extraction, keeping the native
extraction otherwise; above the threshold the native extraction is returned
unchanged. -/
theorem ocr_fallback_policy (pages : List PdfPage) :
    ((pyStrip (nativeText pages)).length < 100 →
      extract_text_from_pdf pages =
        if (nativeText pages).length < (ocrText pages).length then ocrText pages
        else nativeText pages) ∧
    (¬(pyStrip (nativeText pages)).length < 100 →
      extract_text_from_pdf pages = nativeText pages) := by
  constructor
  · intro h
    unfold extract_text_from_pdf
    rw [if_pos h]
  · intro h
    unfold extract_text_from_pdf
    rw [if_neg h]

/-- C9, witness. The claim applied to a one-page document whose native
extraction is the two characters hi, below the threshold, and whose page
image carries a longer recognised text: the OCR output is preferred. -/
theorem ocr_fallback_policy_witness :
    extract_text_from_pdf [⟨some (strL "hi"), none, strL "recognised text of the page"⟩] =
      ocrText [⟨some (strL "hi"), none, strL "recognised text of the page"⟩] := by
  have h := (ocr_fallback_policy [⟨some (strL "hi"), none,
    strL "recognised text of the page"⟩]).1 (by decide)
  rw [h]
  decide

/-- C3, counterexample. On an unsupported extension extract_resume_text
does not fail with a distinguished unsupported-format error: it returns the
empty string as an ordinary result, the very value a successful extraction
of an empty supported document also returns, so the caller receives a
result rather than a failure. -/
theorem extract_unsupported_cex :
    (extract_resume_text (fun _ : Unit => Except.ok ([] : List Char))
      (fun _ => Except.ok []) (none : Option Unit) ⟨strL "resume.txt", ()⟩ 0 []).1 =
      Except.ok ([] : List Char) ∧
    (extract_resume_text (fun _ : Unit => Except.ok ([] : List Char))
      (fun _ => Except.ok []) (none : Option Unit) ⟨strL "empty.docx", ()⟩ 0 []).1 =
      Except.ok ([] : List Char) := by
  constructor
  · rfl
  · rfl

/-- C3, amended claim. For every uploaded document whose lowercased
filename extension is neither .pdf nor .docx, extract_resume_text invokes
neither extractor (the result is the same for all extractor oracles) and
returns the empty string as an ordinary success value; the surrounding
pipeline later reports the document as failed because its cleaned text is
empty. -/
theorem extract_unsupported_empty {ε α : Type} (pdfE docxE : α → Except ε (List Char))
    (file : UploadedFile α) (p : Nat) (fs : List Nat)
    (h1 : splitextExt (strLower file.name) ≠ strL ".pdf")
    (h2 : splitextExt (strLower file.name) ≠ strL ".docx") :
    (extract_resume_text pdfE docxE none file p fs).1 = Except.ok [] := by
  unfold extract_resume_text
  simp [h1, h2]

/-- C3, witness. The amended claim applied to the filename resume.txt with
concrete extractor oracles. -/
theorem extract_unsupported_empty_witness :
    (extract_resume_text (fun _ : Unit => Except.ok (strL "pdf text"))
      (fun _ => Except.ok (strL "docx text")) (none : Option Unit)
      ⟨strL "resume.txt", ()⟩ 3 [5]).1 = Except.ok [] :=
  extract_unsupported_empty (fun _ : Unit => Except.ok (strL "pdf text"))
    (fun _ => Except.ok (strL "docx text")) ⟨strL "resume.txt", ()⟩ 3 [5]
    (by decide) (by decide)

/-- C6, counterexample. The temporary file is not deleted on every exit
path: when the write of the uploaded content raises inside the with-block,
the already created temporary file (path 7, created with deletion disabled)
is still present after extract_resume_text returns, because the unlink in
the finally clause guards only the later dispatch. -/
theorem extract_write_exception_leak :
    (extract_resume_text (fun _ : Unit => Except.ok ([] : List Char))
      (fun _ => Except.ok []) (some ()) ⟨strL "resume.pdf", ()⟩ 7 []).2 = [7] ∧
    (7 : Nat) ∈ (extract_resume_text (fun _ : Unit => Except.ok ([] : List Char))
      (fun _ => Except.ok []) (some ()) ⟨strL "resume.pdf", ()⟩ 7 []).2 := by
  constructor
  · rfl
  · decide

/-- C6, amended claim. Once the uploaded content has been written, the
temporary file is deleted before extract_resume_text returns on every exit
path of the dispatch (successful extraction, extractor exception,
unsupported format), and no other file-system state is modified: the final
file set equals the initial one for every extractor behaviour. Only an
exception raised while writing the upload itself (before the protected
region is entered) leaves the file behind. -/
theorem extract_temp_file_removed {ε α : Type} (pdfE docxE : α → Except ε (List Char))
    (file : UploadedFile α) (p : Nat) (fs : List Nat) :
    (extract_resume_text pdfE docxE none file p fs).2 = fs := by
  unfold extract_resume_text
  simp [List.erase_cons_head]

end ResumeApp
